import Mathlib

/-!
Shallow embedding of the layout computation of
`src/box_1000x500x20_20250514_457e4a.py`: a perforated plate with a staggered
grid of hexagonal holes.  Python float arithmetic on the values involved is
modelled over `ℚ`; Python `int()` (truncation toward zero) is modelled by
T-division of numerator by denominator.  Calls into the external CAD kernel
(polygon, face, extrusion, boolean cut, export) are out of scope per the spec
and are represented by an abstract-constructor `Shape` tree recording exactly the
calls the script makes.
-/

namespace PerforatedSheet

/-- Input parameters of the script (mm).  The source fixes concrete constants
(lines 19-27); the layout computation is embedded as a function of these
parameters so the universally quantified properties can be stated. -/
structure Params where
  plate_length : ℚ
  plate_width : ℚ
  plate_thickness : ℚ
  hole_diameter : ℚ
  pitch_x : ℚ
  pitch_y : ℚ

/-- `tol = 1e-6` (line 29). -/
def tol : ℚ := 1 / 1000000

/-- `hole_radius = hole_diameter / 2.0` (line 24). -/
def hole_radius (p : Params) : ℚ := p.hole_diameter / 2

/-- Python `int()` applied to a real value: truncation toward zero, i.e.
T-division of the numerator by the denominator. -/
def int_trunc (q : ℚ) : ℤ := Int.tdiv q.num (q.den : ℤ)

/-- Lines 34-37: `n_cols = 0` if the hole cannot fit, else
`int((plate_length - hole_diameter) / pitch_x) + 1`. -/
def n_cols (p : Params) : ℤ :=
  if p.plate_length < p.hole_diameter then 0
  else int_trunc ((p.plate_length - p.hole_diameter) / p.pitch_x) + 1

/-- Line 39: `span_x = (n_cols - 1) * pitch_x + hole_diameter`. -/
def span_x (p : Params) : ℚ := ((n_cols p : ℚ) - 1) * p.pitch_x + p.hole_diameter

/-- Lines 38-42: centering margin along X. -/
def margin_x (p : Params) : ℚ :=
  if 0 < n_cols p then (p.plate_length - span_x p) / 2
  else p.plate_length / 2

/-- Lines 44-47: row count, symmetric to `n_cols`. -/
def n_rows (p : Params) : ℤ :=
  if p.plate_width < p.hole_diameter then 0
  else int_trunc ((p.plate_width - p.hole_diameter) / p.pitch_y) + 1

/-- Line 49: `span_y = (n_rows - 1) * pitch_y + hole_diameter`. -/
def span_y (p : Params) : ℚ := ((n_rows p : ℚ) - 1) * p.pitch_y + p.hole_diameter

/-- Lines 48-52: centering margin along Y. -/
def margin_y (p : Params) : ℚ :=
  if 0 < n_rows p then (p.plate_width - span_y p) / 2
  else p.plate_width / 2

/-- Line 88: `cy = margin_y + hole_radius + row * pitch_y`. -/
def cy (p : Params) (row : ℕ) : ℚ := margin_y p + hole_radius p + row * p.pitch_y

/-- Line 90: stagger odd rows by half the X pitch. -/
def x_offset (p : Params) (row : ℕ) : ℚ := if row % 2 = 1 then p.pitch_x / 2 else 0

/-- Line 92: `cx = margin_x + hole_radius + col * pitch_x + x_offset`. -/
def cx (p : Params) (row col : ℕ) : ℚ :=
  margin_x p + hole_radius p + col * p.pitch_x + x_offset p row

/-- Lines 94-95: the boundary check on a candidate grid position. -/
def accepted (p : Params) (row col : ℕ) : Bool :=
  decide (-tol ≤ cx p row col - hole_radius p) &&
  decide (cx p row col + hole_radius p ≤ p.plate_length + tol) &&
  decide (-tol ≤ cy p row - hole_radius p) &&
  decide (cy p row + hole_radius p ≤ p.plate_width + tol)

/-- Lines 86-97: the ordered sequence of accepted hole centers; the row loop
is outer, the column loop inner, and only positions passing the boundary
check are kept. -/
def hole_centers (p : Params) : List (ℚ × ℚ) :=
  (List.range (n_rows p).toNat).flatMap fun row =>
    ((List.range (n_cols p).toNat).filter fun col => accepted p row col).map
      fun col => (cx p row col, cy p row)

/-- Geometry produced by the external CAD kernel, recorded as an abstract call
tree (the internal algorithms of the kernel are out of scope per the spec). -/
inductive Shape where
  | base : Shape
  | hexagon (hx hy radius thickness : ℚ) : Shape
  | compound (tools : List Shape) : Shape
  | cut (target tool : Shape) : Shape

/-- Lines 67-81: `make_hexagon_hole` delegates to the kernel; we record the
call with its arguments. -/
def make_hexagon_hole (hx hy radius thickness : ℚ) : Shape :=
  Shape.hexagon hx hy radius thickness

/-- Lines 86-97: one hexagon solid per accepted center. -/
def hole_tools (p : Params) : List Shape :=
  (hole_centers p).map fun c => make_hexagon_hole c.1 c.2 (hole_radius p) p.plate_thickness

/-- Lines 102-106: subtract all holes at once when any exist, else keep the
base plate (`if hole_tools:` is Python truthiness, i.e. non-emptiness). -/
def result_shape (p : Params) : Shape :=
  if (hole_tools p).isEmpty then Shape.base
  else Shape.cut Shape.base (Shape.compound (hole_tools p))

/-- The constants fixed in the script (lines 19-27). -/
def script_params : Params :=
  { plate_length := 100, plate_width := 50, plate_thickness := 2
    hole_diameter := 5, pitch_x := 10, pitch_y := 10 }

/-- A small instance producing a single hole, used for witnesses. -/
def sample_params : Params :=
  { plate_length := 10, plate_width := 10, plate_thickness := 2
    hole_diameter := 5, pitch_x := 10, pitch_y := 10 }

/-- A degenerate instance where the hole is larger than the plate. -/
def tiny_params : Params :=
  { plate_length := 3, plate_width := 3, plate_thickness := 2
    hole_diameter := 5, pitch_x := 10, pitch_y := 10 }

/-! ### Basic facts about the embedded arithmetic -/

theorem tol_pos : 0 < tol := by norm_num [tol]

theorem int_trunc_eq_floor {q : ℚ} (h : 0 ≤ q) : int_trunc q = ⌊q⌋ := by
  rw [int_trunc, Int.tdiv_eq_ediv (Rat.num_nonneg.mpr h) (by positivity), Rat.floor_def]

theorem n_cols_floor (p : Params) (h : p.hole_diameter ≤ p.plate_length)
    (hpx : 0 < p.pitch_x) :
    n_cols p = ⌊(p.plate_length - p.hole_diameter) / p.pitch_x⌋ + 1 := by
  rw [n_cols, if_neg (not_lt.mpr h),
    int_trunc_eq_floor (div_nonneg (sub_nonneg.mpr h) hpx.le)]

theorem n_rows_floor (p : Params) (h : p.hole_diameter ≤ p.plate_width)
    (hpy : 0 < p.pitch_y) :
    n_rows p = ⌊(p.plate_width - p.hole_diameter) / p.pitch_y⌋ + 1 := by
  rw [n_rows, if_neg (not_lt.mpr h),
    int_trunc_eq_floor (div_nonneg (sub_nonneg.mpr h) hpy.le)]

theorem n_cols_pos (p : Params) (h : p.hole_diameter ≤ p.plate_length)
    (hpx : 0 < p.pitch_x) : 0 < n_cols p := by
  rw [n_cols_floor p h hpx]
  have h0 : (0 : ℤ) ≤ ⌊(p.plate_length - p.hole_diameter) / p.pitch_x⌋ :=
    Int.floor_nonneg.mpr (div_nonneg (sub_nonneg.mpr h) hpx.le)
  omega

theorem n_rows_pos (p : Params) (h : p.hole_diameter ≤ p.plate_width)
    (hpy : 0 < p.pitch_y) : 0 < n_rows p := by
  rw [n_rows_floor p h hpy]
  have h0 : (0 : ℤ) ≤ ⌊(p.plate_width - p.hole_diameter) / p.pitch_y⌋ :=
    Int.floor_nonneg.mpr (div_nonneg (sub_nonneg.mpr h) hpy.le)
  omega

theorem span_x_le (p : Params) (h : p.hole_diameter ≤ p.plate_length)
    (hpx : 0 < p.pitch_x) : span_x p ≤ p.plate_length := by
  rw [span_x, n_cols_floor p h hpx]
  have h1 : ((⌊(p.plate_length - p.hole_diameter) / p.pitch_x⌋ + 1 : ℤ) : ℚ) - 1 =
      (⌊(p.plate_length - p.hole_diameter) / p.pitch_x⌋ : ℚ) := by push_cast; ring
  rw [h1]
  have h2 : (⌊(p.plate_length - p.hole_diameter) / p.pitch_x⌋ : ℚ) ≤
      (p.plate_length - p.hole_diameter) / p.pitch_x := Int.floor_le _
  have h3 := mul_le_mul_of_nonneg_right h2 hpx.le
  rw [div_mul_cancel₀ _ hpx.ne'] at h3
  linarith

theorem span_y_le (p : Params) (h : p.hole_diameter ≤ p.plate_width)
    (hpy : 0 < p.pitch_y) : span_y p ≤ p.plate_width := by
  rw [span_y, n_rows_floor p h hpy]
  have h1 : ((⌊(p.plate_width - p.hole_diameter) / p.pitch_y⌋ + 1 : ℤ) : ℚ) - 1 =
      (⌊(p.plate_width - p.hole_diameter) / p.pitch_y⌋ : ℚ) := by push_cast; ring
  rw [h1]
  have h2 : (⌊(p.plate_width - p.hole_diameter) / p.pitch_y⌋ : ℚ) ≤
      (p.plate_width - p.hole_diameter) / p.pitch_y := Int.floor_le _
  have h3 := mul_le_mul_of_nonneg_right h2 hpy.le
  rw [div_mul_cancel₀ _ hpy.ne'] at h3
  linarith

theorem n_cols_zero (p : Params) (h : p.plate_length < p.hole_diameter) :
    n_cols p = 0 := by rw [n_cols, if_pos h]

theorem n_rows_zero (p : Params) (h : p.plate_width < p.hole_diameter) :
    n_rows p = 0 := by rw [n_rows, if_pos h]

theorem margin_x_nonneg (p : Params) (hL : 0 < p.plate_length)
    (hpx : 0 < p.pitch_x) : 0 ≤ margin_x p := by
  by_cases h : p.plate_length < p.hole_diameter
  · rw [margin_x, n_cols_zero p h]
    simp only [lt_irrefl, if_false]
    positivity
  · rw [margin_x, if_pos (n_cols_pos p (not_lt.mp h) hpx)]
    have := span_x_le p (not_lt.mp h) hpx
    linarith

theorem margin_y_nonneg (p : Params) (hW : 0 < p.plate_width)
    (hpy : 0 < p.pitch_y) : 0 ≤ margin_y p := by
  by_cases h : p.plate_width < p.hole_diameter
  · rw [margin_y, n_rows_zero p h]
    simp only [lt_irrefl, if_false]
    positivity
  · rw [margin_y, if_pos (n_rows_pos p (not_lt.mp h) hpy)]
    have := span_y_le p (not_lt.mp h) hpy
    linarith

/-! ### Claim C1 -/

/-- C1: grid layout formula.  For positive plate dimensions, hole diameter and
pitches: if the plate is shorter than the hole diameter then `n_cols = 0` and
`margin_x = plate_length/2`; otherwise
`n_cols = floor((plate_length - hole_diameter)/pitch_x) + 1` and `margin_x`
centers the span `span_x = (n_cols - 1)*pitch_x + hole_diameter`; the
symmetric rule yields `n_rows` and `margin_y`. -/
theorem grid_layout_formula (p : Params) (hL : 0 < p.plate_length)
    (hW : 0 < p.plate_width) (hd : 0 < p.hole_diameter)
    (hpx : 0 < p.pitch_x) (hpy : 0 < p.pitch_y) :
    (p.plate_length < p.hole_diameter →
      n_cols p = 0 ∧ margin_x p = p.plate_length / 2) ∧
    (p.hole_diameter ≤ p.plate_length →
      n_cols p = ⌊(p.plate_length - p.hole_diameter) / p.pitch_x⌋ + 1 ∧
      margin_x p = (p.plate_length - span_x p) / 2) ∧
    (p.plate_width < p.hole_diameter →
      n_rows p = 0 ∧ margin_y p = p.plate_width / 2) ∧
    (p.hole_diameter ≤ p.plate_width →
      n_rows p = ⌊(p.plate_width - p.hole_diameter) / p.pitch_y⌋ + 1 ∧
      margin_y p = (p.plate_width - span_y p) / 2) := by
  refine ⟨fun h => ⟨n_cols_zero p h, ?_⟩, fun h => ⟨n_cols_floor p h hpx, ?_⟩,
    fun h => ⟨n_rows_zero p h, ?_⟩, fun h => ⟨n_rows_floor p h hpy, ?_⟩⟩
  · rw [margin_x, n_cols_zero p h]
    simp only [lt_irrefl, if_false]
  · rw [margin_x, if_pos (n_cols_pos p h hpx)]
  · rw [margin_y, n_rows_zero p h]
    simp only [lt_irrefl, if_false]
  · rw [margin_y, if_pos (n_rows_pos p h hpy)]

/-- Witness for C1 at the constants of the script. -/
theorem grid_layout_formula_witness :
    ((0 : ℚ) < script_params.plate_length ∧ (0 : ℚ) < script_params.plate_width ∧
      (0 : ℚ) < script_params.hole_diameter ∧ (0 : ℚ) < script_params.pitch_x ∧
      (0 : ℚ) < script_params.pitch_y) ∧
    ((script_params.plate_length < script_params.hole_diameter →
        n_cols script_params = 0 ∧
        margin_x script_params = script_params.plate_length / 2) ∧
      (script_params.hole_diameter ≤ script_params.plate_length →
        n_cols script_params =
          ⌊(script_params.plate_length - script_params.hole_diameter) /
            script_params.pitch_x⌋ + 1 ∧
        margin_x script_params = (script_params.plate_length - span_x script_params) / 2) ∧
      (script_params.plate_width < script_params.hole_diameter →
        n_rows script_params = 0 ∧
        margin_y script_params = script_params.plate_width / 2) ∧
      (script_params.hole_diameter ≤ script_params.plate_width →
        n_rows script_params =
          ⌊(script_params.plate_width - script_params.hole_diameter) /
            script_params.pitch_y⌋ + 1 ∧
        margin_y script_params = (script_params.plate_width - span_y script_params) / 2)) :=
  ⟨⟨by norm_num [script_params], by norm_num [script_params], by norm_num [script_params],
      by norm_num [script_params], by norm_num [script_params]⟩,
    grid_layout_formula script_params (by norm_num [script_params])
      (by norm_num [script_params]) (by norm_num [script_params])
      (by norm_num [script_params]) (by norm_num [script_params])⟩

/-! ### Claim C4 -/

/-- C4: whenever the plate is at least as long as the hole diameter (with
positive diameter and pitch), at least one column fits and the resulting span
does not exceed the plate length. -/
theorem cols_fit (p : Params) (hLd : p.hole_diameter ≤ p.plate_length)
    (hd : 0 < p.hole_diameter) (hpx : 0 < p.pitch_x) :
    1 ≤ n_cols p ∧ span_x p ≤ p.plate_length :=
  ⟨n_cols_pos p hLd hpx, span_x_le p hLd hpx⟩

/-- Witness for C4 at the constants of the script. -/
theorem cols_fit_witness :
    (script_params.hole_diameter ≤ script_params.plate_length ∧
      (0 : ℚ) < script_params.hole_diameter ∧ (0 : ℚ) < script_params.pitch_x) ∧
    (1 ≤ n_cols script_params ∧ span_x script_params ≤ script_params.plate_length) :=
  ⟨⟨by norm_num [script_params], by norm_num [script_params], by norm_num [script_params]⟩,
    cols_fit script_params (by norm_num [script_params]) (by norm_num [script_params])
      (by norm_num [script_params])⟩

/-! ### Claim C5 -/

/-- C5: when the plate is shorter than the hole diameter, no column fits and
the hole enumerator produces no positions at all. -/
theorem degenerate_no_holes (p : Params) (hL : 0 < p.plate_length)
    (hd : 0 < p.hole_diameter) (hLd : p.plate_length < p.hole_diameter) :
    n_cols p = 0 ∧ hole_centers p = [] := by
  refine ⟨n_cols_zero p hLd, ?_⟩
  rw [hole_centers, List.flatMap_eq_nil_iff]
  intro row _
  rw [n_cols_zero p hLd]
  simp

/-- Witness for C5 at a plate smaller than the hole. -/
theorem degenerate_no_holes_witness :
    ((0 : ℚ) < tiny_params.plate_length ∧ (0 : ℚ) < tiny_params.hole_diameter ∧
      tiny_params.plate_length < tiny_params.hole_diameter) ∧
    (n_cols tiny_params = 0 ∧ hole_centers tiny_params = []) :=
  ⟨⟨by norm_num [tiny_params], by norm_num [tiny_params], by norm_num [tiny_params]⟩,
    degenerate_no_holes tiny_params (by norm_num [tiny_params])
      (by norm_num [tiny_params]) (by norm_num [tiny_params])⟩

/-! ### Claim C9 -/

/-- C9: for positive plate dimensions, hole diameter and pitches, the
centering margins are never negative. -/
theorem margins_nonneg (p : Params) (hL : 0 < p.plate_length)
    (hW : 0 < p.plate_width) (hd : 0 < p.hole_diameter)
    (hpx : 0 < p.pitch_x) (hpy : 0 < p.pitch_y) :
    0 ≤ margin_x p ∧ 0 ≤ margin_y p :=
  ⟨margin_x_nonneg p hL hpx, margin_y_nonneg p hW hpy⟩

/-- Witness for C9 at the constants of the script. -/
theorem margins_nonneg_witness :
    ((0 : ℚ) < script_params.plate_length ∧ (0 : ℚ) < script_params.plate_width ∧
      (0 : ℚ) < script_params.hole_diameter ∧ (0 : ℚ) < script_params.pitch_x ∧
      (0 : ℚ) < script_params.pitch_y) ∧
    (0 ≤ margin_x script_params ∧ 0 ≤ margin_y script_params) :=
  ⟨⟨by norm_num [script_params], by norm_num [script_params], by norm_num [script_params],
      by norm_num [script_params], by norm_num [script_params]⟩,
    margins_nonneg script_params (by norm_num [script_params]) (by norm_num [script_params])
      (by norm_num [script_params]) (by norm_num [script_params])
      (by norm_num [script_params])⟩

/-! ### The boundary check as a proposition -/

theorem accepted_eq_true_iff (p : Params) (row col : ℕ) :
    accepted p row col = true ↔
      (-tol ≤ cx p row col - hole_radius p ∧
       cx p row col + hole_radius p ≤ p.plate_length + tol ∧
       -tol ≤ cy p row - hole_radius p ∧
       cy p row + hole_radius p ≤ p.plate_width + tol) := by
  simp [accepted, and_assoc]

theorem mem_hole_centers {p : Params} {c : ℚ × ℚ} :
    c ∈ hole_centers p ↔
      ∃ row col : ℕ, row < (n_rows p).toNat ∧ col < (n_cols p).toNat ∧
        accepted p row col = true ∧ c = (cx p row col, cy p row) := by
  simp only [hole_centers, List.mem_flatMap, List.mem_map, List.mem_filter,
    List.mem_range]
  constructor
  · rintro ⟨row, hrow, col, ⟨hcol, hacc⟩, rfl⟩
    exact ⟨row, col, hrow, hcol, hacc, rfl⟩
  · rintro ⟨row, col, hrow, hcol, hacc, rfl⟩
    exact ⟨row, hrow, col, ⟨hcol, hacc⟩, rfl⟩

theorem x_offset_nonneg (p : Params) (hpx : 0 < p.pitch_x) (row : ℕ) :
    0 ≤ x_offset p row := by
  rw [x_offset]
  split
  · positivity
  · exact le_refl 0

/-! ### Concrete evaluation on the small sample plate -/

theorem sample_L : sample_params.plate_length = 10 := rfl

theorem sample_W : sample_params.plate_width = 10 := rfl

theorem sample_d : sample_params.hole_diameter = 5 := rfl

theorem sample_px : sample_params.pitch_x = 10 := rfl

theorem sample_py : sample_params.pitch_y = 10 := rfl

theorem n_cols_sample : n_cols sample_params = 1 := by
  rw [n_cols]
  norm_num [sample_L, sample_d, sample_px, int_trunc]
  decide

theorem n_rows_sample : n_rows sample_params = 1 := by
  rw [n_rows]
  norm_num [sample_W, sample_d, sample_py, int_trunc]
  decide

theorem margin_x_sample : margin_x sample_params = 5 / 2 := by
  rw [margin_x, span_x, n_cols_sample]
  norm_num [sample_L, sample_d, sample_px]

theorem margin_y_sample : margin_y sample_params = 5 / 2 := by
  rw [margin_y, span_y, n_rows_sample]
  norm_num [sample_W, sample_d, sample_py]

theorem hole_centers_sample : hole_centers sample_params = [(5, 5)] := by
  rw [hole_centers, n_rows_sample, n_cols_sample, show ((1 : ℤ).toNat) = 1 from rfl]
  norm_num [List.range_succ, accepted, cx, cy, x_offset, hole_radius,
    margin_x_sample, margin_y_sample, tol, sample_L, sample_W, sample_d,
    sample_px, sample_py]

/-! ### Claim C2 -/

/-- C2: every accepted hole center keeps the hexagon circumcircle inside
`[0, plate_length] × [0, plate_width]` up to the tolerance `1e-6`. -/
theorem hole_boundary_invariant (p : Params) (hL : 0 < p.plate_length)
    (hW : 0 < p.plate_width) (hd : 0 < p.hole_diameter)
    (hpx : 0 < p.pitch_x) (hpy : 0 < p.pitch_y)
    (c : ℚ × ℚ) (hc : c ∈ hole_centers p) :
    -tol ≤ c.1 - hole_radius p ∧ c.1 + hole_radius p ≤ p.plate_length + tol ∧
    -tol ≤ c.2 - hole_radius p ∧ c.2 + hole_radius p ≤ p.plate_width + tol := by
  obtain ⟨row, col, _, _, hacc, rfl⟩ := mem_hole_centers.mp hc
  exact (accepted_eq_true_iff p row col).mp hacc

/-- Witness for C2: the single hole of the small sample plate. -/
theorem hole_boundary_invariant_witness :
    ((0 : ℚ) < sample_params.plate_length ∧ (0 : ℚ) < sample_params.plate_width ∧
      (0 : ℚ) < sample_params.hole_diameter ∧ (0 : ℚ) < sample_params.pitch_x ∧
      (0 : ℚ) < sample_params.pitch_y ∧ ((5 : ℚ), (5 : ℚ)) ∈ hole_centers sample_params) ∧
    (-tol ≤ ((5 : ℚ), (5 : ℚ)).1 - hole_radius sample_params ∧
      ((5 : ℚ), (5 : ℚ)).1 + hole_radius sample_params ≤ sample_params.plate_length + tol ∧
      -tol ≤ ((5 : ℚ), (5 : ℚ)).2 - hole_radius sample_params ∧
      ((5 : ℚ), (5 : ℚ)).2 + hole_radius sample_params ≤ sample_params.plate_width + tol) :=
  ⟨⟨by norm_num [sample_params], by norm_num [sample_params], by norm_num [sample_params],
      by norm_num [sample_params], by norm_num [sample_params],
      by rw [hole_centers_sample]; exact List.mem_singleton.mpr rfl⟩,
    hole_boundary_invariant sample_params (by norm_num [sample_params])
      (by norm_num [sample_params]) (by norm_num [sample_params])
      (by norm_num [sample_params]) (by norm_num [sample_params]) ((5 : ℚ), (5 : ℚ))
      (by rw [hole_centers_sample]; exact List.mem_singleton.mpr rfl)⟩

/-! ### Claim C6 -/

/-- C6: at a fixed column index, the centers of two adjacent rows differ in x
by exactly half the X pitch (in absolute value). -/
theorem stagger_half_pitch (p : Params) (hpx : 0 < p.pitch_x) (row col : ℕ) :
    |cx p (row + 1) col - cx p row col| = p.pitch_x / 2 := by
  have hdiff : cx p (row + 1) col - cx p row col =
      x_offset p (row + 1) - x_offset p row := by
    simp only [cx]; ring
  rcases Nat.mod_two_eq_zero_or_one row with h | h
  · have h1 : (row + 1) % 2 = 1 := by omega
    rw [hdiff, x_offset, x_offset, if_pos h1, if_neg (by omega), sub_zero,
      abs_of_pos (by positivity)]
  · have h1 : ¬((row + 1) % 2 = 1) := by omega
    rw [hdiff, x_offset, x_offset, if_neg h1, if_pos h, zero_sub, abs_neg,
      abs_of_pos (by positivity)]

/-- Witness for C6: rows 0 and 1 of the grid of the script at column 0. -/
theorem stagger_half_pitch_witness :
    (0 : ℚ) < script_params.pitch_x ∧
    |cx script_params (0 + 1) 0 - cx script_params 0 0| = script_params.pitch_x / 2 :=
  ⟨by norm_num [script_params],
    stagger_half_pitch script_params (by norm_num [script_params]) 0 0⟩

/-! ### Bounds used by the acceptance analysis -/

theorem row_cast_le (p : Params) {row : ℕ} (hrow : row < (n_rows p).toNat) :
    (row : ℚ) ≤ (n_rows p : ℚ) - 1 := by
  have h1 : (row : ℤ) < n_rows p := Int.lt_toNat.mp hrow
  have h2 : (row : ℤ) ≤ n_rows p - 1 := by omega
  exact_mod_cast h2

theorem col_cast_le (p : Params) {col : ℕ} (hcol : col < (n_cols p).toNat) :
    (col : ℚ) ≤ (n_cols p : ℚ) - 1 := by
  have h1 : (col : ℤ) < n_cols p := Int.lt_toNat.mp hcol
  have h2 : (col : ℤ) ≤ n_cols p - 1 := by omega
  exact_mod_cast h2

theorem cy_sub_radius_nonneg (p : Params) (hW : 0 < p.plate_width)
    (hpy : 0 < p.pitch_y) (row : ℕ) : 0 ≤ cy p row - hole_radius p := by
  rw [cy, hole_radius]
  have h1 := margin_y_nonneg p hW hpy
  have h2 : 0 ≤ (row : ℚ) * p.pitch_y := mul_nonneg (Nat.cast_nonneg row) hpy.le
  linarith

theorem cy_add_radius_le (p : Params) (hWd : p.hole_diameter ≤ p.plate_width)
    (hpy : 0 < p.pitch_y) {row : ℕ} (hrow : row < (n_rows p).toNat) :
    cy p row + hole_radius p ≤ p.plate_width := by
  have h2 : (row : ℚ) * p.pitch_y ≤ ((n_rows p : ℚ) - 1) * p.pitch_y :=
    mul_le_mul_of_nonneg_right (row_cast_le p hrow) hpy.le
  have h3 := span_y_le p hWd hpy
  have h4 : margin_y p = (p.plate_width - span_y p) / 2 := by
    rw [margin_y, if_pos (n_rows_pos p hWd hpy)]
  have h5 : span_y p = ((n_rows p : ℚ) - 1) * p.pitch_y + p.hole_diameter := rfl
  rw [cy, hole_radius]
  linarith

theorem cx_sub_radius_nonneg (p : Params) (hL : 0 < p.plate_length)
    (hpx : 0 < p.pitch_x) (row col : ℕ) : 0 ≤ cx p row col - hole_radius p := by
  rw [cx, hole_radius]
  have h1 := margin_x_nonneg p hL hpx
  have h2 : 0 ≤ (col : ℚ) * p.pitch_x := mul_nonneg (Nat.cast_nonneg col) hpx.le
  have h3 := x_offset_nonneg p hpx row
  linarith

theorem cx_add_radius_le_even (p : Params) (hLd : p.hole_diameter ≤ p.plate_length)
    (hpx : 0 < p.pitch_x) {row col : ℕ} (heven : row % 2 = 0)
    (hcol : col < (n_cols p).toNat) :
    cx p row col + hole_radius p ≤ p.plate_length := by
  have h2 : (col : ℚ) * p.pitch_x ≤ ((n_cols p : ℚ) - 1) * p.pitch_x :=
    mul_le_mul_of_nonneg_right (col_cast_le p hcol) hpx.le
  have h3 := span_x_le p hLd hpx
  have h4 : margin_x p = (p.plate_length - span_x p) / 2 := by
    rw [margin_x, if_pos (n_cols_pos p hLd hpx)]
  have h5 : span_x p = ((n_cols p : ℚ) - 1) * p.pitch_x + p.hole_diameter := rfl
  have h6 : x_offset p row = 0 := by
    rw [x_offset, if_neg (by omega)]
  rw [cx, hole_radius, h6]
  linarith

/-! ### Claim C10 -/

/-- C10: when a hole fits along both axes, the y-half of the boundary check
holds for every enumerated row, every position in an even row passes the full
check, and a rejected position must lie in an odd row and fail exactly the
x-axis upper-bound test. -/
theorem rejection_only_odd_x (p : Params) (hpx : 0 < p.pitch_x)
    (hpy : 0 < p.pitch_y) (hd : 0 < p.hole_diameter)
    (hLd : p.hole_diameter ≤ p.plate_length) (hWd : p.hole_diameter ≤ p.plate_width) :
    (∀ row : ℕ, row < (n_rows p).toNat →
      -tol ≤ cy p row - hole_radius p ∧
      cy p row + hole_radius p ≤ p.plate_width + tol) ∧
    (∀ row col : ℕ, row < (n_rows p).toNat → col < (n_cols p).toNat →
      row % 2 = 0 → accepted p row col = true) ∧
    (∀ row col : ℕ, row < (n_rows p).toNat → col < (n_cols p).toNat →
      accepted p row col = false →
      row % 2 = 1 ∧ ¬(cx p row col + hole_radius p ≤ p.plate_length + tol)) := by
  have hW : 0 < p.plate_width := lt_of_lt_of_le hd hWd
  have hL : 0 < p.plate_length := lt_of_lt_of_le hd hLd
  have hy : ∀ row : ℕ, row < (n_rows p).toNat →
      -tol ≤ cy p row - hole_radius p ∧
      cy p row + hole_radius p ≤ p.plate_width + tol := by
    intro row hrow
    have h1 := cy_sub_radius_nonneg p hW hpy row
    have h2 := cy_add_radius_le p hWd hpy hrow
    have h3 := tol_pos
    exact ⟨by linarith, by linarith⟩
  have heven : ∀ row col : ℕ, row < (n_rows p).toNat → col < (n_cols p).toNat →
      row % 2 = 0 → accepted p row col = true := by
    intro row col hrow hcol h0
    have h1 := cx_sub_radius_nonneg p hL hpx row col
    have h2 := cx_add_radius_le_even p hLd hpx h0 hcol
    have h3 := hy row hrow
    have h4 := tol_pos
    exact (accepted_eq_true_iff p row col).mpr
      ⟨by linarith, by linarith, h3.1, h3.2⟩
  refine ⟨hy, heven, ?_⟩
  intro row col hrow hcol hfalse
  have hodd : row % 2 = 1 := by
    rcases Nat.mod_two_eq_zero_or_one row with h | h
    · rw [heven row col hrow hcol h] at hfalse
      exact Bool.noConfusion hfalse
    · exact h
  refine ⟨hodd, fun hxu => ?_⟩
  have h1 := cx_sub_radius_nonneg p hL hpx row col
  have h3 := hy row hrow
  have h4 := tol_pos
  have : accepted p row col = true :=
    (accepted_eq_true_iff p row col).mpr ⟨by linarith, hxu, h3.1, h3.2⟩
  rw [hfalse] at this
  exact Bool.noConfusion this

/-- Witness for C10 at the constants of the script. -/
theorem rejection_only_odd_x_witness :
    ((0 : ℚ) < script_params.pitch_x ∧ (0 : ℚ) < script_params.pitch_y ∧
      (0 : ℚ) < script_params.hole_diameter ∧
      script_params.hole_diameter ≤ script_params.plate_length ∧
      script_params.hole_diameter ≤ script_params.plate_width) ∧
    ((∀ row : ℕ, row < (n_rows script_params).toNat →
        -tol ≤ cy script_params row - hole_radius script_params ∧
        cy script_params row + hole_radius script_params ≤
          script_params.plate_width + tol) ∧
      (∀ row col : ℕ, row < (n_rows script_params).toNat →
        col < (n_cols script_params).toNat → row % 2 = 0 →
        accepted script_params row col = true) ∧
      (∀ row col : ℕ, row < (n_rows script_params).toNat →
        col < (n_cols script_params).toNat → accepted script_params row col = false →
        row % 2 = 1 ∧
        ¬(cx script_params row col + hole_radius script_params ≤
            script_params.plate_length + tol))) :=
  ⟨⟨by norm_num [script_params], by norm_num [script_params], by norm_num [script_params],
      by norm_num [script_params], by norm_num [script_params]⟩,
    rejection_only_odd_x script_params (by norm_num [script_params])
      (by norm_num [script_params]) (by norm_num [script_params])
      (by norm_num [script_params]) (by norm_num [script_params])⟩

/-! ### Strict monotonicity of the center coordinates -/

theorem cx_lt_of_col_lt (p : Params) (hpx : 0 < p.pitch_x) (row : ℕ) {a b : ℕ}
    (h : a < b) : cx p row a < cx p row b := by
  rw [cx, cx]
  have h1 : (a : ℚ) < b := by exact_mod_cast h
  have h2 := mul_lt_mul_of_pos_right h1 hpx
  linarith

theorem cy_lt_of_row_lt (p : Params) (hpy : 0 < p.pitch_y) {a b : ℕ}
    (h : a < b) : cy p a < cy p b := by
  rw [cy, cy]
  have h1 : (a : ℚ) < b := by exact_mod_cast h
  have h2 := mul_lt_mul_of_pos_right h1 hpy
  linarith

/-- Row-major order on centers: strictly later row (larger `cy`), or the same
row and a strictly later column (larger `cx`). -/
def row_major (a b : ℚ × ℚ) : Prop := a.2 < b.2 ∨ (a.2 = b.2 ∧ a.1 < b.1)

/-! ### Claim C7 -/

/-- Claim C7: the enumeration is a pure function of the inputs (identical
parameters give the identical finite list), and the accepted centers come out
in row-major order: increasing row, and increasing column within a row. -/
theorem enumeration_deterministic_row_major (p : Params) (hpx : 0 < p.pitch_x)
    (hpy : 0 < p.pitch_y) :
    (∀ q : Params, q = p → hole_centers q = hole_centers p) ∧
    (hole_centers p).Pairwise row_major := by
  refine ⟨fun q h => by rw [h], ?_⟩
  rw [hole_centers, List.pairwise_flatMap]
  constructor
  · intro row _
    rw [List.pairwise_map]
    refine List.Pairwise.imp ?_
      (List.Pairwise.sublist (List.filter_sublist _) (List.pairwise_lt_range _))
    intro a b hab
    exact Or.inr ⟨rfl, cx_lt_of_col_lt p hpx row hab⟩
  · refine List.Pairwise.imp ?_ (List.pairwise_lt_range _)
    intro r1 r2 hr x hx y hy
    obtain ⟨c1, _, rfl⟩ := List.mem_map.mp hx
    obtain ⟨c2, _, rfl⟩ := List.mem_map.mp hy
    exact Or.inl (cy_lt_of_row_lt p hpy hr)

/-- Witness for C7 at the constants of the script. -/
theorem enumeration_deterministic_row_major_witness :
    ((0 : ℚ) < script_params.pitch_x ∧ (0 : ℚ) < script_params.pitch_y) ∧
    ((∀ q : Params, q = script_params → hole_centers q = hole_centers script_params) ∧
      (hole_centers script_params).Pairwise row_major) :=
  ⟨⟨by norm_num [script_params], by norm_num [script_params]⟩,
    enumeration_deterministic_row_major script_params (by norm_num [script_params])
      (by norm_num [script_params])⟩

/-! ### Claim C8 -/

/-- Claim C8: with no accepted holes the boolean-assembly step leaves the base
plate untouched; with at least one hole all hole solids are gathered into one
compound which is subtracted from the base plate in a single cut. -/
theorem empty_holes_guard (p : Params) :
    (hole_tools p = [] → result_shape p = Shape.base) ∧
    (hole_tools p ≠ [] →
      result_shape p = Shape.cut Shape.base (Shape.compound (hole_tools p))) := by
  constructor
  · intro h
    rw [result_shape, if_pos (List.isEmpty_iff.mpr h)]
  · intro h
    rw [result_shape, if_neg (fun hK => h (List.isEmpty_iff.mp hK))]

theorem sample_t : sample_params.plate_thickness = 2 := rfl

theorem hole_tools_sample :
    hole_tools sample_params = [Shape.hexagon 5 5 (5 / 2) 2] := by
  rw [hole_tools, hole_centers_sample]
  norm_num [make_hexagon_hole, hole_radius, sample_d, sample_t]

theorem hole_centers_tiny : hole_centers tiny_params = [] := by
  rw [hole_centers, List.flatMap_eq_nil_iff]
  intro row _
  rw [n_cols_zero tiny_params (by norm_num [tiny_params])]
  simp

theorem hole_tools_tiny : hole_tools tiny_params = [] := by
  rw [hole_tools, hole_centers_tiny]
  rfl

/-- Witness for C8: both branches, on the one-hole sample plate and on the
degenerate plate with no holes. -/
theorem empty_holes_guard_witness :
    (hole_tools tiny_params = [] ∧ result_shape tiny_params = Shape.base) ∧
    (hole_tools sample_params ≠ [] ∧
      result_shape sample_params =
        Shape.cut Shape.base (Shape.compound (hole_tools sample_params))) := by
  have hne : hole_tools sample_params ≠ [] := by
    rw [hole_tools_sample]
    exact List.cons_ne_nil _ _
  exact ⟨⟨hole_tools_tiny, (empty_holes_guard tiny_params).1 hole_tools_tiny⟩,
    ⟨hne, (empty_holes_guard sample_params).2 hne⟩⟩

/-! ### Concrete evaluation at the constants of the script -/

theorem sp_L : script_params.plate_length = 100 := rfl

theorem sp_W : script_params.plate_width = 50 := rfl

theorem sp_d : script_params.hole_diameter = 5 := rfl

theorem sp_px : script_params.pitch_x = 10 := rfl

theorem sp_py : script_params.pitch_y = 10 := rfl

theorem n_cols_script : n_cols script_params = 10 := by
  rw [n_cols]
  norm_num [sp_L, sp_d, sp_px, int_trunc]
  decide

theorem n_rows_script : n_rows script_params = 5 := by
  rw [n_rows]
  norm_num [sp_W, sp_d, sp_py, int_trunc]
  decide

theorem margin_x_script : margin_x script_params = 5 / 2 := by
  rw [margin_x, span_x, n_cols_script]
  norm_num [sp_L, sp_d, sp_px]

theorem margin_y_script : margin_y script_params = 5 / 2 := by
  rw [margin_y, span_y, n_rows_script]
  norm_num [sp_W, sp_d, sp_py]

theorem cx_script_row1_col9 : cx script_params 1 9 = 100 := by
  rw [cx]
  norm_num [x_offset, margin_x_script, hole_radius, sp_d, sp_px]

theorem accepted_script_row1_col9 : accepted script_params 1 9 = false := by
  rw [Bool.eq_false_iff]
  intro h
  have h2 := ((accepted_eq_true_iff script_params 1 9).mp h).2.1
  rw [cx_script_row1_col9] at h2
  norm_num [hole_radius, sp_d, sp_L, tol] at h2

theorem hole_centers_script_length : (hole_centers script_params).length = 48 := by
  rw [hole_centers, n_rows_script, n_cols_script,
    show ((5 : ℤ).toNat) = 5 from rfl, show ((10 : ℤ).toNat) = 10 from rfl]
  norm_num [List.range_succ, accepted, cx, cy, x_offset, hole_radius,
    margin_x_script, margin_y_script, tol, sp_L, sp_W, sp_d, sp_px, sp_py]

/-! ### Claim C3 -/

/-- Claim C3 as stated is false at the constants of the script: the margins are
`2.5`, not `0`, and only 48 of the 50 evaluated grid positions are accepted
(the last column of row 1 is rejected). -/
theorem end_to_end_claim_false :
    ¬(n_cols script_params = 10 ∧ n_rows script_params = 5 ∧
      margin_x script_params = 0 ∧ margin_y script_params = 0 ∧
      (n_rows script_params).toNat * (n_cols script_params).toNat = 50 ∧
      (hole_centers script_params).length = 50 ∧
      accepted script_params 1 9 = true) := by
  intro h
  have h3 := h.2.2.1
  rw [margin_x_script] at h3
  norm_num at h3

/-- Claim C3, amended: with the constants of the script, `n_cols = 10`,
`n_rows = 5`, `margin_x = margin_y = 2.5`; 50 grid positions are evaluated and
48 are accepted — the last column of row 1 has `cx = 100.0`, so
`cx + radius = 102.5 > 100 + tol` and it is rejected. -/
theorem end_to_end_script_values :
    n_cols script_params = 10 ∧ n_rows script_params = 5 ∧
    margin_x script_params = 5 / 2 ∧ margin_y script_params = 5 / 2 ∧
    (n_rows script_params).toNat * (n_cols script_params).toNat = 50 ∧
    (hole_centers script_params).length = 48 ∧
    cx script_params 1 9 = 100 ∧
    accepted script_params 1 9 = false := by
  refine ⟨n_cols_script, n_rows_script, margin_x_script, margin_y_script, ?_,
    hole_centers_script_length, cx_script_row1_col9, accepted_script_row1_col9⟩
  rw [n_rows_script, n_cols_script]
  rfl

end PerforatedSheet
